import Mathlib

/-!
Verification development for the accuracy-evaluation engine of a
forecast-vs-actual dashboard.  The Python source is shallowly embedded:
dataframes become lists of rows, pandas NaN becomes `Option`/`EVal.nan`,
float infinity becomes `EVal.inf`, and machine floats are modelled as `ℚ`.
Each definition mirrors one function (or one vectorised column expression)
of `utils/error_calculator.py`, `utils/data_processor.py` or
`config/settings.py`.
-/

/-- Extended value: a pandas float cell that may be NaN or +inf.
Only `+inf` ever arises in the error-rate pipeline (zero-actual sentinel). -/
inductive EVal where
  | nan : EVal
  | inf : EVal
  | fin : ℚ → EVal
deriving DecidableEq

/-- `notna ∧ isfinite` for a cell: true exactly on finite values. -/
def EVal.isFin : EVal → Bool
  | .fin _ => true
  | _ => false

/-- Pandas `Series.abs()` on an extended value (`abs(inf)=inf`, `abs(nan)=nan`). -/
def EVal.abs : EVal → EVal
  | .nan => .nan
  | .inf => .inf
  | .fin q => .fin |q|

/-- Pandas comparison `v >= 0` (NaN compares false, `inf >= 0` is true). -/
def EVal.ge0 : EVal → Bool
  | .nan => false
  | .inf => true
  | .fin q => decide (0 ≤ q)

/-- Pandas comparison `v < 0` (NaN compares false, `inf < 0` is false). -/
def EVal.lt0 : EVal → Bool
  | .nan => false
  | .inf => false
  | .fin q => decide (q < 0)

/-- Numeric content of a finite cell (0 on the non-finite sentinels;
only applied after those have been filtered out). -/
def EVal.toQ : EVal → ℚ
  | .fin q => q
  | _ => 0

/-- `error_calculator.calculate_error_rates`, per-row core (lines 26-46):
the signed error-rate column.  `actual` and `plan` are raw numeric cells
(`none` = NaN).  A NaN actual falls in `normal_mask` (pandas `NaN != 0` is
true) and the division propagates NaN; a zero actual with a plan `> 0` or
`== 0` is set to `inf`, and with a negative or NaN plan it stays NaN. -/
def error_rate_of (plan actual : Option ℚ) : EVal :=
  match actual with
  | none => EVal.nan
  | some x =>
    if x = 0 then
      match plan with
      | none => EVal.nan
      | some q => if 0 ≤ q then EVal.inf else EVal.nan
    else
      match plan with
      | none => EVal.nan
      | some q => EVal.fin ((q - x) / x)

/-- Pandas mask `actual_values != 0` (NaN != 0 evaluates true). -/
def actualNeZero : Option ℚ → Bool
  | none => true
  | some x => decide (x ≠ 0)

/-- The per-record error metrics attached by `calculate_error_rates`. -/
structure ErrorMetrics where
  is_actual_zero : Bool
  error_rate : EVal
  absolute_error_rate : EVal
  positive_error_rate : EVal
  negative_error_rate : EVal
deriving DecidableEq

/-- `error_calculator.calculate_error_rates`, per-row (lines 26-60):
`is_actual_zero = (actual == 0)`; `absolute = |signed|`;
`positive = signed.where(signed >= 0)`;
`negative = signed.where((actual != 0) & (signed < 0))`. -/
def errorMetricsRow (plan actual : Option ℚ) : ErrorMetrics :=
  let er := error_rate_of plan actual
  { is_actual_zero := decide (actual = some 0)
    error_rate := er
    absolute_error_rate := er.abs
    positive_error_rate := if er.ge0 then er else EVal.nan
    negative_error_rate := if actualNeZero actual && er.lt0 then er else EVal.nan }

/-- One row of an error-rate band from `config/settings.py`
(`ERROR_RATE_CATEGORIES`): `[min, max)`, `max = none` meaning +inf. -/
structure BandDef where
  min : ℚ
  max : Option ℚ
  label : String
deriving DecidableEq

/-- `ERROR_RATE_CATEGORIES['absolute']`, regular bands (settings.py 56-62). -/
def absoluteBands : List BandDef :=
  [⟨0, some (1/10), "0〜10%"⟩,
   ⟨1/10, some (2/10), "10〜20%"⟩,
   ⟨2/10, some (3/10), "20〜30%"⟩,
   ⟨3/10, some (5/10), "30〜50%"⟩,
   ⟨5/10, some 1, "50〜100%"⟩,
   ⟨1, none, "100%以上"⟩]

/-- `ERROR_RATE_CATEGORIES['positive']`, regular bands (settings.py 65-71). -/
def positiveBands : List BandDef :=
  [⟨0, some (1/10), "＋0〜10%"⟩,
   ⟨1/10, some (2/10), "＋10〜20%"⟩,
   ⟨2/10, some (3/10), "＋20〜30%"⟩,
   ⟨3/10, some (5/10), "＋30〜50%"⟩,
   ⟨5/10, some 1, "＋50〜100%"⟩,
   ⟨1, none, "＋100%超"⟩]

/-- `ERROR_RATE_CATEGORIES['negative']`, regular bands (settings.py 74-80). -/
def negativeBands : List BandDef :=
  [⟨0, some (1/10), "▲0〜10%"⟩,
   ⟨1/10, some (2/10), "▲10〜20%"⟩,
   ⟨2/10, some (3/10), "▲20〜30%"⟩,
   ⟨3/10, some (5/10), "▲30〜50%"⟩,
   ⟨5/10, some 1, "▲50〜100%"⟩,
   ⟨1, none, "▲100%超"⟩]

/-- Label of the special `actual_zero` entry in `ERROR_RATE_CATEGORIES`
(settings.py: `'計算不能 (実績0)'`). -/
def actualZeroSettingsLabel : String := "計算不能 (実績0)"

/-- The error-rate variant passed to `categorize_error_rates`. -/
inductive ErrType where
  | absolute
  | positive
  | negative
deriving DecidableEq

/-- Regular (non-special) bands used by `categorize_error_rates` for a
given variant. -/
def bandsFor : ErrType → List BandDef
  | .absolute => absoluteBands
  | .positive => positiveBands
  | .negative => negativeBands

/-- One band's condition in `categorize_error_rates` (lines 151-158):
`v >= min` for the unbounded band, `(v >= min) & (v < max)` otherwise,
under pandas float comparisons (NaN always false, `inf >= min` true and
`inf < max` false). -/
def bandHit (b : BandDef) (v : EVal) : Bool :=
  match v with
  | .nan => false
  | .inf => b.max.isNone
  | .fin q =>
    decide (b.min ≤ q) &&
      (match b.max with
       | none => true
       | some m => decide (q < m))

/-- `np.select(conditions, choices, default='未区分')`: the label of the
first band whose condition holds. -/
def selectBand (bs : List BandDef) (v : EVal) : String :=
  match bs.find? (fun b => bandHit b v) with
  | some b => b.label
  | none => "未区分"

/-- `error_calculator.categorize_error_rates`, per-row (lines 110-169).
Zero-actual records are labelled `'計算不能（実績ゼロ）'` for the absolute
and positive variants and left at the `'未区分'` initialisation for the
negative variant; other records are banded on the value of the chosen
column, taking the absolute value for the absolute and negative variants. -/
def categorizeRow (t : ErrType) (isZero : Bool) (v : EVal) : String :=
  if isZero then
    match t with
    | .negative => "未区分"
    | _ => "計算不能（実績ゼロ）"
  else
    let m :=
      match t with
      | .absolute => v.abs
      | .positive => v
      | .negative => v.abs
    selectBand (bandsFor t) m

/-- The error-rate column matching a variant (`pages/matrix.py`
lines 360-365: `absolute_error_rate` / `positive_error_rate` /
`negative_error_rate`). -/
def variantValue (t : ErrType) (m : ErrorMetrics) : EVal :=
  match t with
  | .absolute => m.absolute_error_rate
  | .positive => m.positive_error_rate
  | .negative => m.negative_error_rate

/-- `error_calculator.calculate_weighted_average_error_rate` (lines 64-94)
over a list of (error-rate cell, weight cell) pairs: drop rows whose value
is NaN/inf or whose weight is NaN, return NaN (`none`) on an empty
remainder or a zero weight sum, else `Σ(v·w)/Σ(w)`. -/
def calculate_weighted_average_error_rate (rows : List (EVal × Option ℚ)) : Option ℚ :=
  let valid := rows.filter (fun r => r.1.isFin && r.2.isSome)
  if valid.isEmpty then none
  else
    let wsum := (valid.map (fun r => r.2.getD 0)).sum
    if wsum = 0 then none
    else some (((valid.map (fun r => r.1.toQ * r.2.getD 0)).sum) / wsum)

/-- Stable insertion into a list sorted by `le` (the inserted element goes
before elements it ties with, matching Python's stable `sorted`). -/
def insertBy (le : α → α → Bool) (a : α) : List α → List α
  | [] => [a]
  | b :: l => if le a b then a :: b :: l else b :: insertBy le a l

/-- Stable sort by `le`; models Python's `sorted(..., key=...)` and, for the
contribution sort, a deterministic stand-in for `DataFrame.sort_values`
(whose tie order the source leaves unspecified). -/
def sortBy (le : α → α → Bool) : List α → List α
  | [] => []
  | a :: l => insertBy le a (sortBy le l)

/-- One tier of a ratio-mode configuration
(`{'name': …, 'start_ratio': …, 'end_ratio': …}`). -/
structure RatioCat where
  name : String
  start_ratio : ℚ
  end_ratio : ℚ
deriving DecidableEq

/-- `sorted(categories, key=lambda x: x['start_ratio'])`. -/
def sortByStart (cats : List RatioCat) : List RatioCat :=
  sortBy (fun a b => decide (a.start_ratio ≤ b.start_ratio)) cats

/-- Range check of `data_processor.validate_abc_categories` (lines 421-426):
the first tier failing `0 ≤ start`, `end ≤ 1` or `start < end`, with its
message. -/
def checkRanges : List RatioCat → Option String
  | [] => none
  | c :: rest =>
    if c.start_ratio < 0 ∨ c.end_ratio > 1 then
      some ("区分 \x27" ++ c.name ++ "\x27 の範囲が無効です（0-1の範囲で設定してください）")
    else if c.end_ratio ≤ c.start_ratio then
      some ("区分 \x27" ++ c.name ++ "\x27 の開始値が終了値以上です")
    else checkRanges rest

/-- Overlap check of `validate_abc_categories` (lines 429-432) on the
start-sorted list: the first adjacent pair with `end[i] > start[i+1]`. -/
def checkOverlap : List RatioCat → Option String
  | c₁ :: c₂ :: rest =>
    if c₂.start_ratio < c₁.end_ratio then
      some ("区分 \x27" ++ c₁.name ++ "\x27 と \x27" ++ c₂.name ++ "\x27 の範囲が重複しています")
    else checkOverlap (c₂ :: rest)
  | _ => none

/-- `data_processor.validate_abc_categories` (lines 402-434). -/
def validate_abc_categories (cats : List RatioCat) : Bool × String :=
  if cats.isEmpty then (false, "区分設定が空です")
  else if (cats.map (fun c => c.name)).dedup.length = cats.length then
    match checkRanges cats with
    | some msg => (false, msg)
    | none =>
      match checkOverlap (sortByStart cats) with
      | some msg => (false, msg)
      | none => (true, "")
  else (false, "区分名に重複があります")

/-- One row of the in-memory dataset.  `pcode` models `P_code`, `date` the
numeric `Date`, `actual`/`plan` the weight and comparison cells (`none` =
NaN), `category` the optional `category_code` and `classAbc` the optional
pre-existing `Class_abc` label (an absent column behaves exactly like an
all-NaN one, so it is not modelled separately). -/
structure Row where
  pcode : ℕ
  date : Option ℚ
  actual : Option ℚ
  plan : Option ℚ
  category : Option ℕ
  classAbc : Option String
deriving DecidableEq

/-- `pd.to_numeric(col, errors='coerce').fillna(0).clip(lower=0)`
(data_processor lines 249-252): the cleaned base-column cell. -/
def cleanActual (a : Option ℚ) : ℚ := max (a.getD 0) 0

/-- The base-column cleaning applied to a whole row (`df_work`). -/
def cleanRow (r : Row) : Row := { r with actual := some (cleanActual r.actual) }

/-- `df_work = df.copy()` plus base-column coercion (lines 248-252). -/
def cleanRows (rows : List Row) : List Row := rows.map cleanRow

/-- Distinct product codes, ascending: the index of
`groupby('P_code')[base].sum()` (pandas sorts group keys). -/
def sortedPcodes (rows : List Row) : List ℕ :=
  sortBy (fun a b => decide (a ≤ b)) (rows.map (fun r => r.pcode)).dedup

/-- `groupby('P_code')[base].sum()` over already-cleaned rows. -/
def productTotals (rows : List Row) : List (ℕ × ℚ) :=
  (sortedPcodes rows).map
    (fun p => (p, ((rows.filter (fun r => r.pcode = p)).map (fun r => r.actual.getD 0)).sum))

/-- `product_totals.sort_values(base, ascending=False)`: contribution
totals sorted descending (stable on ties). -/
def sortedTotals (rows : List Row) : List (ℕ × ℚ) :=
  sortBy (fun a b => decide (b.2 ≤ a.2)) (productTotals rows)

/-- Running cumulative sums (`cumsum`), with accumulator `acc`. -/
def cumList : List (ℕ × ℚ) → ℚ → List (ℕ × ℚ)
  | [], _ => []
  | (p, t) :: rest, acc => (p, acc + t) :: cumList rest (acc + t)

/-- The per-tier row mask of `calculate_abc_classification`
(lines 299-303): `ratio ≤ end` for a tier starting at 0, else
`start < ratio ≤ end`. -/
def inTier (c : RatioCat) (ratio : ℚ) : Bool :=
  if c.start_ratio = 0 then decide (ratio ≤ c.end_ratio)
  else decide (c.start_ratio < ratio) && decide (ratio ≤ c.end_ratio)

/-- The tier-assignment loop of `calculate_abc_classification`
(lines 292-304): default `'C'`, then each tier in ascending start order
overwrites the label of the rows its mask selects. -/
def tierOfRatio (cats : List RatioCat) (ratio : ℚ) : String :=
  (sortByStart cats).foldl (fun acc c => if inTier c ratio then c.name else acc) "C"

/-- `abc_mapping` for one partition (lines 286-307): cumulative
contribution ratios of the partition's products (descending by
contribution), each sent through the tier loop.  Only used when the
partition total is positive. -/
def ratioMapping (part : List Row) (cats : List RatioCat) : List (ℕ × String) :=
  (cumList (sortedTotals part) 0).map
    (fun pr => (pr.1, tierOfRatio cats (pr.2 / ((productTotals part).map (fun x => x.2)).sum)))

/-- Initialisation of the `Class_abc` column (lines 254-264): kept when a
partial update is requested or `preserve_existing` is set, else reset. -/
def initLabel (target : Option (List ℕ)) (preserve : Bool) (r : Row) : Option String :=
  if target.isSome || preserve then r.classAbc else none

/-- Whether a category code is processed (lines 269-274): all categories
when `target_categories is None`, else only the listed ones. -/
def isTargeted (target : Option (List ℕ)) (c : ℕ) : Bool :=
  match target with
  | some ts => decide (c ∈ ts)
  | none => true

/-- `'未区分'` back-fill (lines 393-398): applied only in full mode. -/
def fillUnclassified (target : Option (List ℕ)) (lab : Option String) : Option String :=
  match target with
  | some _ => lab
  | none =>
    match lab with
    | none => some "未区分"
    | some l => some l

/-- The `Class_abc` label `calculate_abc_classification` leaves on row `r`
of the (already cleaned) frame `rows` (lines 266-398).  With at least one
categorised row, each targeted category partition is classified on its own
totals (hard-coded `'C'` when the partition total is zero), untargeted rows
keep their initialised label, and category-less rows get `'C'` only in a
full non-preserving run; with no categorised row the whole frame is
classified globally. -/
def abcLabel (rows : List Row) (cats : List RatioCat) (target : Option (List ℕ))
    (preserve : Bool) (r : Row) : Option String :=
  if rows.any (fun x => x.category.isSome) then
    match r.category with
    | some c =>
      if isTargeted target c then
        let part := rows.filter (fun x => x.category = some c)
        if 0 < ((productTotals part).map (fun x => x.2)).sum then
          match (ratioMapping part cats).lookup r.pcode with
          | some lab => some lab
          | none => fillUnclassified target (initLabel target preserve r)
        else some "C"
      else fillUnclassified target (initLabel target preserve r)
    | none =>
      if target.isNone && !preserve then some "C"
      else fillUnclassified target (initLabel target preserve r)
  else
    if 0 < ((productTotals rows).map (fun x => x.2)).sum then
      match (ratioMapping rows cats).lookup r.pcode with
      | some lab => some lab
      | none => fillUnclassified target (initLabel target preserve r)
    else some "C"

/-- `data_processor.calculate_abc_classification` (lines 223-400) on a
frame whose rows carry product codes: copy, coerce the base column, then
attach the tier labels. -/
def calculate_abc_classification (rows : List Row) (cats : List RatioCat)
    (target : Option (List ℕ)) (preserve : Bool) : List Row :=
  (cleanRows rows).map
    (fun r => { r with classAbc := abcLabel (cleanRows rows) cats target preserve r })

/-- One tier of a quantity-mode configuration
(`{'name': …, 'min_value': …}`). -/
structure QtyCat where
  name : String
  min_value : ℚ
deriving DecidableEq

/-- Month count of `calculate_monthly_average_actual` (lines 682-686):
the number of distinct non-NaN period values, but 1 when there are none. -/
def monthCount (rows : List Row) : ℕ :=
  let ds := (rows.filterMap (fun r => r.date)).dedup
  if ds.isEmpty then 1 else ds.length

/-- `data_processor.calculate_monthly_average_actual` (lines 659-694):
per-product total of the (NaN→0) base column divided by the frame-wide
month count. -/
def monthlyAverages (rows : List Row) : List (ℕ × ℚ) :=
  (sortedPcodes rows).map
    (fun p => (p,
      ((rows.filter (fun r => r.pcode = p)).map (fun r => r.actual.getD 0)).sum
        / (monthCount rows : ℚ)))

/-- Tier walk of `calculate_abc_classification_by_quantity`
(lines 559-567): default is the last tier's name, overridden by the first
tier in list order whose `min_value ≤` the monthly average. -/
def qtyTier (cats : List QtyCat) (avg : ℚ) : String :=
  match cats.find? (fun c => decide (c.min_value ≤ avg)) with
  | some c => c.name
  | none => ((cats.getLast?).map (fun c => c.name)).getD ""

/-- The `Class_abc` label `calculate_abc_classification_by_quantity`
leaves on row `r` of the (already cleaned) frame `rows` (lines 542-621);
same partition and partial-update structure as `abcLabel`, with the
monthly-average threshold rule in place of the cumulative-ratio rule. -/
def qtyLabel (rows : List Row) (cats : List QtyCat) (target : Option (List ℕ))
    (preserve : Bool) (r : Row) : Option String :=
  if rows.any (fun x => x.category.isSome) then
    match r.category with
    | some c =>
      if isTargeted target c then
        match (monthlyAverages (rows.filter (fun x => x.category = some c))).lookup r.pcode with
        | some avg => some (qtyTier cats avg)
        | none => fillUnclassified target (initLabel target preserve r)
      else fillUnclassified target (initLabel target preserve r)
    | none =>
      if target.isNone && !preserve then some (((cats.getLast?).map (fun c => c.name)).getD "")
      else fillUnclassified target (initLabel target preserve r)
  else
    match (monthlyAverages rows).lookup r.pcode with
    | some avg => some (qtyTier cats avg)
    | none => fillUnclassified target (initLabel target preserve r)

/-- `data_processor.calculate_abc_classification_by_quantity`
(lines 499-623) on a frame whose rows carry product codes. -/
def calculate_abc_classification_by_quantity (rows : List Row) (cats : List QtyCat)
    (target : Option (List ℕ)) (preserve : Bool) : List Row :=
  (cleanRows rows).map
    (fun r => { r with classAbc := qtyLabel (cleanRows rows) cats target preserve r })

/-- `error_calculator.calculate_error_rates` (lines 5-62) on a frame: the
returned frame is the input rows with the five metric columns attached. -/
def calculate_error_rates (rows : List Row) : List (Row × ErrorMetrics) :=
  rows.map (fun r => (r, errorMetricsRow r.plan r.actual))

/-- C4 counterexample: a partition whose actuals are all zero, classified
under tiers named `X` and `Y`, leaves every item labelled the hard-coded
`'C'` — a name that belongs to neither configured tier, and in particular
not to the lowest-ranked tier `Y`. -/
theorem c4_zero_partition_counterexample :
    ((calculate_abc_classification
        [⟨1, some 1, some 0, some 5, some 7, none⟩, ⟨2, some 1, some 0, some 3, some 7, none⟩]
        [⟨"X", 0, 1/2⟩, ⟨"Y", 1/2, 1⟩] none false).map (fun r => r.classAbc)) =
      [some "C", some "C"] ∧
    "C" ∉ ([⟨"X", 0, 1/2⟩, ⟨"Y", 1/2, 1⟩] : List RatioCat).map (fun c => c.name) := by
  constructor
  · norm_num [calculate_abc_classification, cleanRows, cleanRow, cleanActual, abcLabel,
      productTotals, sortedPcodes, sortedTotals, sortBy, insertBy, cumList, ratioMapping,
      tierOfRatio, sortByStart, inTier, List.lookup, isTargeted, fillUnclassified, initLabel]
  · decide

/-- C4 (amended): every item of a targeted category partition whose total
(cleaned) contribution is zero is assigned the fixed label `'C'` —
regardless of the configured tier names, so it coincides with the
lowest-ranked tier only under the default `A/B/C` naming. -/
theorem c4_zero_partition_amended (rows : List Row) (cats : List RatioCat)
    (target : Option (List ℕ)) (preserve : Bool) (r : Row) (c : ℕ)
    (hr : r ∈ rows) (hrc : r.category = some c)
    (htarget : isTargeted target c = true)
    (hzero : ∀ x ∈ rows, x.category = some c → x.actual.getD 0 = 0) :
    abcLabel rows cats target preserve r = some "C" := by
  have hany : rows.any (fun x => x.category.isSome) = true :=
    List.any_eq_true.mpr ⟨r, hr, by rw [hrc]; rfl⟩
  have htot : ((productTotals (rows.filter (fun x => x.category = some c))).map
      (fun x => x.2)).sum = 0 := by
    apply List.sum_eq_zero
    intro q hq
    rcases List.mem_map.mp hq with ⟨pr, hpr, hq2⟩
    rcases List.mem_map.mp hpr with ⟨p, _hp, hpr2⟩
    subst hpr2
    subst hq2
    apply List.sum_eq_zero
    intro y hy
    rcases List.mem_map.mp hy with ⟨x, hx, hy2⟩
    rcases List.mem_filter.mp hx with ⟨hx1, _⟩
    rcases List.mem_filter.mp hx1 with ⟨hx3, hx4⟩
    rw [← hy2]
    exact hzero x hx3 (of_decide_eq_true hx4)
  simp only [abcLabel, hany, hrc, htarget, if_true, htot]
  norm_num

/-- Witness for `c4_zero_partition_amended` on a one-row frame. -/
theorem c4_zero_partition_amended_witness :
    abcLabel [⟨1, some 1, some 0, some 5, some 7, none⟩]
      [⟨"X", 0, 1/2⟩, ⟨"Y", 1/2, 1⟩] none false
      ⟨1, some 1, some 0, some 5, some 7, none⟩ = some "C" :=
  c4_zero_partition_amended _ _ none false _ 7 (List.mem_cons_self _ _) rfl rfl
    (by
      intro x hx _
      rcases List.mem_cons.mp hx with h | h
      · rw [h]
        rfl
      · cases h)

/-- Looking a key up in a keyed `map` returns that key's image. -/
theorem lookup_map_value (l : List ℕ) (f : ℕ → ℚ) (p : ℕ) (v : ℚ)
    (h : (l.map (fun x => (x, f x))).lookup p = some v) : v = f p := by
  induction l with
  | nil => cases h
  | cons a rest ih =>
    rw [List.map_cons, List.lookup] at h
    by_cases hpa : p = a
    · subst hpa
      simp at h
      exact h.symm
    · have hne : (p == a) = false := by simp [hpa]
      rw [hne] at h
      exact ih h

/-- `find?` over the tier walk returns the first tier whose threshold is
at or below the average, provided some tier qualifies. -/
theorem find_first_qty (cats : List QtyCat) (avg : ℚ)
    (hex : ∃ c ∈ cats, c.min_value ≤ avg) :
    ∃ i : Fin cats.length,
      cats.find? (fun c => decide (c.min_value ≤ avg)) = some (cats.get i) ∧
      (cats.get i).min_value ≤ avg ∧
      ∀ j : Fin cats.length, j < i → avg < (cats.get j).min_value := by
  induction cats with
  | nil =>
    obtain ⟨c, hc, _⟩ := hex
    cases hc
  | cons c rest ih =>
    by_cases hc : c.min_value ≤ avg
    · refine ⟨⟨0, by simp⟩, ?_, hc, ?_⟩
      · rw [List.find?_cons_of_pos _ (by simpa using hc)]
        rfl
      · intro j hj
        cases hj
    · have hex2 : ∃ d ∈ rest, d.min_value ≤ avg := by
        obtain ⟨d, hd, hdm⟩ := hex
        rcases List.mem_cons.mp hd with hdc | hdr
        · exact absurd (hdc ▸ hdm) hc
        · exact ⟨d, hdr, hdm⟩
      obtain ⟨i, hfind, hle, hfirst⟩ := ih hex2
      refine ⟨⟨i.val + 1, by simp⟩, ?_, hle, ?_⟩
      · rw [List.find?_cons_of_neg _ (by simpa using hc)]
        exact hfind
      · intro j hj
        rcases j with ⟨jv, hjv⟩
        cases jv with
        | zero => exact not_le.mp hc
        | succ k =>
          exact hfirst ⟨k, by simpa using hjv⟩ (by simpa [Fin.lt_def] using hj)

/-- C7: an item's monthly average is its total base value over all its
rows divided by the number of distinct period values present in the
frame, and the tier walk (over a configuration listed in descending
threshold order) assigns the first tier whose threshold is `≤` the
average — some tier always qualifying when a threshold-0 tier is
present, since averages are non-negative. -/
theorem c7_quantity_assignment (rows : List Row) (p : ℕ) (avg : ℚ) (cats : List QtyCat)
    (hdates : rows.filterMap (fun r => r.date) ≠ [])
    (hlookup : (monthlyAverages rows).lookup p = some avg)
    (hlast : ∃ c ∈ cats, c.min_value = 0)
    (havg : 0 ≤ avg) :
    avg = ((rows.filter (fun r => r.pcode = p)).map (fun r => r.actual.getD 0)).sum /
        ((rows.filterMap (fun r => r.date)).dedup.length : ℚ) ∧
    ∃ i : Fin cats.length, qtyTier cats avg = (cats.get i).name ∧
      (cats.get i).min_value ≤ avg ∧
      ∀ j : Fin cats.length, j < i → avg < (cats.get j).min_value := by
  constructor
  · have hmc : monthCount rows = (rows.filterMap (fun r => r.date)).dedup.length := by
      unfold monthCount
      rw [if_neg]
      simp only [List.isEmpty_iff, List.dedup_eq_nil]
      exact hdates
    have := lookup_map_value (sortedPcodes rows)
      (fun p => ((rows.filter (fun r => r.pcode = p)).map (fun r => r.actual.getD 0)).sum
        / (monthCount rows : ℚ)) p avg hlookup
    rw [this, hmc]
  · obtain ⟨c0, hc0, hc0z⟩ := hlast
    obtain ⟨i, hfind, hle, hfirst⟩ :=
      find_first_qty cats avg ⟨c0, hc0, hc0z ▸ havg⟩
    exact ⟨i, by rw [qtyTier, hfind], hle, hfirst⟩

/-- Witness for `c7_quantity_assignment`: product 1 over two periods with
actuals 10 and 20 has monthly average 15 = 30 / 2. -/
theorem c7_quantity_assignment_witness :
    (15 : ℚ) = ((((([⟨1, some 1, some 10, some 8, none, none⟩,
        ⟨1, some 2, some 20, some 18, none, none⟩] : List Row).filter
          (fun r => r.pcode = 1)).map (fun r => r.actual.getD 0)).sum) /
        ((([⟨1, some 1, some 10, some 8, none, none⟩,
          ⟨1, some 2, some 20, some 18, none, none⟩] : List Row).filterMap
            (fun r => r.date)).dedup.length : ℚ)) :=
  (c7_quantity_assignment
    [⟨1, some 1, some 10, some 8, none, none⟩, ⟨1, some 2, some 20, some 18, none, none⟩]
    1 15 [⟨"A", 10⟩, ⟨"B", 5⟩, ⟨"C", 0⟩]
    (by decide)
    (by
      have hmc : monthCount [⟨1, some 1, some 10, some 8, none, none⟩,
          ⟨1, some 2, some 20, some 18, none, none⟩] = 2 := by decide
      have hsp : sortedPcodes [⟨1, some 1, some 10, some 8, none, none⟩,
          ⟨1, some 2, some 20, some 18, none, none⟩] = [1] := by decide
      norm_num [monthlyAverages, hmc, hsp, List.lookup])
    ⟨⟨"C", 0⟩, List.mem_cons_of_mem _ (List.mem_cons_of_mem _ (List.mem_cons_self _ _)), rfl⟩
    (by norm_num)).1

/-- With a non-zero, non-NaN actual and a non-NaN plan, the signed rate is
the finite value `(plan − actual)/actual`. -/
theorem error_rate_of_fin (x q : ℚ) (hx : x ≠ 0) :
    error_rate_of (some q) (some x) = EVal.fin ((q - x) / x) := by
  simp [error_rate_of, hx]

/-- Per-record direction split: for a valid record the absolute rate is
present, and exactly one of the positive and negative rates is. -/
theorem metrics_split (x q : ℚ) (hx : x ≠ 0) :
    (errorMetricsRow (some q) (some x)).absolute_error_rate.isFin = true ∧
    ((errorMetricsRow (some q) (some x)).positive_error_rate.isFin = true ∧
        (errorMetricsRow (some q) (some x)).negative_error_rate = EVal.nan ∨
      (errorMetricsRow (some q) (some x)).positive_error_rate = EVal.nan ∧
        (errorMetricsRow (some q) (some x)).negative_error_rate.isFin = true) := by
  simp only [errorMetricsRow, error_rate_of_fin x q hx]
  rcases le_or_lt 0 ((q - x) / x) with h | h
  · refine ⟨?_, Or.inl ⟨?_, ?_⟩⟩ <;>
      simp [EVal.abs, EVal.isFin, EVal.ge0, EVal.lt0, h, not_lt.mpr h]
  · refine ⟨?_, Or.inr ⟨?_, ?_⟩⟩ <;>
      simp [EVal.abs, EVal.isFin, EVal.ge0, EVal.lt0, h, not_le.mpr h, actualNeZero, hx]

/-- C1: a zero-actual record is flagged, its signed rate is non-finite,
the absolute and positive views put it in the dedicated incalculable
band, the negative view puts it in no band and its negative rate is
absent (so negative-view counts exclude it). -/
theorem c1_zero_actual_policy (p : Option ℚ) :
    (errorMetricsRow p (some 0)).is_actual_zero = true ∧
    (errorMetricsRow p (some 0)).error_rate.isFin = false ∧
    categorizeRow .absolute (errorMetricsRow p (some 0)).is_actual_zero
      (errorMetricsRow p (some 0)).absolute_error_rate = "計算不能（実績ゼロ）" ∧
    categorizeRow .positive (errorMetricsRow p (some 0)).is_actual_zero
      (errorMetricsRow p (some 0)).positive_error_rate = "計算不能（実績ゼロ）" ∧
    categorizeRow .negative (errorMetricsRow p (some 0)).is_actual_zero
      (errorMetricsRow p (some 0)).negative_error_rate = "未区分" ∧
    "未区分" ∉ negativeBands.map (fun b => b.label) ∧
    "未区分" ≠ actualZeroSettingsLabel ∧
    (errorMetricsRow p (some 0)).negative_error_rate = EVal.nan := by
  refine ⟨rfl, ?_, rfl, rfl, rfl, by decide, by decide, rfl⟩
  cases p with
  | none => rfl
  | some q =>
    rcases le_or_lt 0 q with h | h
    · simp [errorMetricsRow, error_rate_of, h, EVal.isFin]
    · simp [errorMetricsRow, error_rate_of, not_le.mpr h, EVal.isFin]

/-- C2: with a non-zero actual and a defined signed rate, the positive
rate is present iff the rate is `≥ 0`, the negative rate iff it is
`< 0` (a zero rate goes to the positive side only), exactly one of the
two is present, and over any such record subset the absolute count is
the positive count plus the negative count. -/
theorem c2_directional_split (x q : ℚ) (hx : x ≠ 0)
    (rows : List (Option ℚ × Option ℚ))
    (hrows : ∀ r ∈ rows, ∃ y u, r = (some u, some y) ∧ y ≠ 0) :
    ((errorMetricsRow (some q) (some x)).positive_error_rate.isFin = true ↔
      0 ≤ (q - x) / x) ∧
    ((errorMetricsRow (some q) (some x)).negative_error_rate.isFin = true ↔
      (q - x) / x < 0) ∧
    (errorMetricsRow (some q) (some x)).positive_error_rate.isFin ≠
      (errorMetricsRow (some q) (some x)).negative_error_rate.isFin ∧
    ((q - x) / x = 0 →
      (errorMetricsRow (some q) (some x)).positive_error_rate = EVal.fin 0 ∧
      (errorMetricsRow (some q) (some x)).negative_error_rate = EVal.nan) ∧
    rows.countP (fun r => (errorMetricsRow r.1 r.2).absolute_error_rate.isFin) =
      rows.countP (fun r => (errorMetricsRow r.1 r.2).positive_error_rate.isFin) +
      rows.countP (fun r => (errorMetricsRow r.1 r.2).negative_error_rate.isFin) := by
  refine ⟨?_, ?_, ?_, ?_, ?_⟩
  · simp only [errorMetricsRow, error_rate_of_fin x q hx]
    rcases le_or_lt 0 ((q - x) / x) with h | h
    · simp [EVal.ge0, EVal.isFin, h]
    · simp [EVal.ge0, EVal.isFin, not_le.mpr h, h]
  · simp only [errorMetricsRow, error_rate_of_fin x q hx]
    rcases le_or_lt 0 ((q - x) / x) with h | h
    · simp [EVal.lt0, EVal.isFin, actualNeZero, hx, h, not_lt.mpr h]
    · simp [EVal.lt0, EVal.isFin, actualNeZero, hx, h]
  · rcases (metrics_split x q hx).2 with ⟨h₁, h₂⟩ | ⟨h₁, h₂⟩ <;> rw [h₁, h₂] <;> decide
  · intro h0
    simp [errorMetricsRow, error_rate_of_fin x q hx, h0, EVal.ge0, EVal.lt0]
  · induction rows with
    | nil => rfl
    | cons a l ih =>
      obtain ⟨y, u, ha, hy⟩ := hrows a (List.mem_cons_self a l)
      have hl := ih (fun r hr => hrows r (List.mem_cons_of_mem a hr))
      have hnf : EVal.nan.isFin = false := rfl
      subst ha
      rcases (metrics_split y u hy).2 with ⟨h₁, h₂⟩ | ⟨h₁, h₂⟩ <;>
        simp [List.countP_cons, (metrics_split y u hy).1, h₁, h₂, hnf, hl] <;>
        omega

/-- Witness for `c2_directional_split` at `x = 2`, `q = 3`, one record. -/
theorem c2_directional_split_witness :
    [((some 1 : Option ℚ), (some 2 : Option ℚ))].countP
        (fun r => (errorMetricsRow r.1 r.2).absolute_error_rate.isFin) =
      [((some 1 : Option ℚ), (some 2 : Option ℚ))].countP
        (fun r => (errorMetricsRow r.1 r.2).positive_error_rate.isFin) +
      [((some 1 : Option ℚ), (some 2 : Option ℚ))].countP
        (fun r => (errorMetricsRow r.1 r.2).negative_error_rate.isFin) :=
  (c2_directional_split 2 3 (by norm_num) _
    (by intro r hr; exact ⟨2, 1, by simpa using hr, by norm_num⟩)).2.2.2.2

/-- C5: the weighted aggregator drops rows whose chosen value is NaN or
infinite (or whose weight is NaN), answers `none` exactly on an empty
remainder or a zero remaining weight sum, and otherwise returns
`Σ(vᵢ·wᵢ)/Σ(wᵢ)` over the remaining rows. -/
theorem c5_weighted_average_contract (rows : List (EVal × Option ℚ)) :
    (calculate_weighted_average_error_rate rows = none ↔
      rows.filter (fun r => r.1.isFin && r.2.isSome) = [] ∨
        ((rows.filter (fun r => r.1.isFin && r.2.isSome)).map (fun r => r.2.getD 0)).sum = 0) ∧
    (rows.filter (fun r => r.1.isFin && r.2.isSome) ≠ [] →
      ((rows.filter (fun r => r.1.isFin && r.2.isSome)).map (fun r => r.2.getD 0)).sum ≠ 0 →
      calculate_weighted_average_error_rate rows =
        some ((((rows.filter (fun r => r.1.isFin && r.2.isSome)).map
            (fun r => r.1.toQ * r.2.getD 0)).sum) /
          ((rows.filter (fun r => r.1.isFin && r.2.isSome)).map (fun r => r.2.getD 0)).sum)) := by
  unfold calculate_weighted_average_error_rate
  by_cases he : rows.filter (fun r => r.1.isFin && r.2.isSome) = []
  · simp [he]
  · by_cases hw :
      ((rows.filter (fun r => r.1.isFin && r.2.isSome)).map (fun r => r.2.getD 0)).sum = 0 <;>
      simp [List.isEmpty_iff, he, hw]

/-- Witness for `c5_weighted_average_contract`: a NaN row is dropped and
the weighted mean of the survivor is its own value. -/
theorem c5_weighted_average_contract_witness :
    calculate_weighted_average_error_rate
      [(EVal.fin (1/5), some 10), (EVal.nan, some 5)] = some (1/5) := by
  have h := (c5_weighted_average_contract
    [(EVal.fin (1/5), some 10), (EVal.nan, some 5)]).2 (by decide) (by norm_num [EVal.isFin])
  rw [h]
  norm_num [EVal.isFin, EVal.toQ]

/-- A string starting with a nonempty prefix is nonempty. -/
theorem append_ne_empty_left (a b : String) (ha : a ≠ "") : a ++ b ≠ "" := by
  intro h
  apply ha
  have h2 : (a ++ b).data = "".data := congrArg String.data h
  rw [String.data_append] at h2
  have ha0 : a.data = [] := (List.append_eq_nil.mp h2).1
  cases a
  simp_all

/-- The per-tier range check passes exactly when every tier has
`0 ≤ start`, `end ≤ 1` and `start < end`. -/
theorem checkRanges_eq_none (cs : List RatioCat) :
    checkRanges cs = none ↔
      ∀ c ∈ cs, 0 ≤ c.start_ratio ∧ c.end_ratio ≤ 1 ∧ c.start_ratio < c.end_ratio := by
  induction cs with
  | nil => simp [checkRanges]
  | cons c rest ih =>
    by_cases h1 : c.start_ratio < 0 ∨ c.end_ratio > 1
    · simp only [checkRanges, if_pos h1]
      constructor
      · intro h; cases h
      · intro h
        rcases h1 with h1 | h1
        · exact absurd (h c (List.mem_cons_self c rest)).1 (not_le.mpr h1)
        · exact absurd (h c (List.mem_cons_self c rest)).2.1 (not_le.mpr h1)
    · by_cases h2 : c.end_ratio ≤ c.start_ratio
      · simp only [checkRanges, if_neg h1, if_pos h2]
        constructor
        · intro h; cases h
        · intro h
          exact absurd h2 (not_le.mpr (h c (List.mem_cons_self c rest)).2.2)
      · have h1' : 0 ≤ c.start_ratio ∧ c.end_ratio ≤ 1 := by
          rw [not_or] at h1
          exact ⟨not_lt.mp h1.1, not_lt.mp h1.2⟩
        have h2' : c.start_ratio < c.end_ratio := not_le.mp h2
        simp only [checkRanges, if_neg h1, if_neg h2, ih, List.mem_cons]
        constructor
        · intro h d hd
          rcases hd with hd | hd
          · subst hd; exact ⟨h1'.1, h1'.2, h2'⟩
          · exact h d hd
        · intro h d hd
          exact h d (Or.inr hd)

/-- The overlap check passes exactly when consecutive tiers of the sorted
list satisfy `end[i] ≤ start[i+1]`. -/
theorem checkOverlap_eq_none (cs : List RatioCat) :
    checkOverlap cs = none ↔
      List.Chain' (fun a b => a.end_ratio ≤ b.start_ratio) cs := by
  induction cs with
  | nil => simp [checkOverlap]
  | cons c₁ rest ih =>
    cases rest with
    | nil => simp [checkOverlap]
    | cons c₂ rest₂ =>
      by_cases h : c₂.start_ratio < c₁.end_ratio
      · simp [checkOverlap, h, List.chain'_cons, not_le.mpr h]
      · simp [checkOverlap, h, List.chain'_cons, not_lt.mp h, ih]

/-- Dedup-length equality is exactly name-uniqueness. -/
theorem dedup_length_eq_iff_nodup (l : List String) :
    l.dedup.length = l.length ↔ l.Nodup := by
  constructor
  · intro h
    have := List.Sublist.eq_of_length (List.dedup_sublist l) h
    rw [← this]
    exact List.nodup_dedup l
  · intro h
    rw [List.dedup_eq_self.mpr h]

/-- The duplicate-name test of the validator, in `Nodup` form. -/
theorem dedup_names_iff_nodup (cats : List RatioCat) :
    (cats.map (fun c => c.name)).dedup.length = cats.length ↔
      (cats.map (fun c => c.name)).Nodup := by
  rw [show cats.length = (cats.map (fun c => c.name)).length by simp]
  exact dedup_length_eq_iff_nodup _

/-- A failing range check always carries a nonempty message. -/
theorem checkRanges_ne_empty (cs : List RatioCat) (m : String)
    (h : checkRanges cs = some m) : m ≠ "" := by
  induction cs with
  | nil => cases h
  | cons c rest ih =>
    by_cases h1 : c.start_ratio < 0 ∨ c.end_ratio > 1
    · rw [checkRanges, if_pos h1] at h
      cases h
      exact append_ne_empty_left _ _ (append_ne_empty_left _ _ (by decide))
    · by_cases h2 : c.end_ratio ≤ c.start_ratio
      · rw [checkRanges, if_neg h1, if_pos h2] at h
        cases h
        exact append_ne_empty_left _ _ (append_ne_empty_left _ _ (by decide))
      · rw [checkRanges, if_neg h1, if_neg h2] at h
        exact ih h

/-- A failing overlap check always carries a nonempty message. -/
theorem checkOverlap_ne_empty (cs : List RatioCat) (m : String)
    (h : checkOverlap cs = some m) : m ≠ "" := by
  induction cs with
  | nil => cases h
  | cons c₁ rest ih =>
    cases rest with
    | nil => cases h
    | cons c₂ rest₂ =>
      by_cases hov : c₂.start_ratio < c₁.end_ratio
      · rw [checkOverlap, if_pos hov] at h
        cases h
        exact append_ne_empty_left _ _ (append_ne_empty_left _ _
          (append_ne_empty_left _ _ (append_ne_empty_left _ _ (by decide))))
      · rw [checkOverlap, if_neg hov] at h
        exact ih h

/-- What acceptance by the validator unfolds to. -/
theorem validate_accepted_parts (cats : List RatioCat)
    (h : (validate_abc_categories cats).1 = true) :
    cats ≠ [] ∧ (cats.map (fun c => c.name)).Nodup ∧
      checkRanges cats = none ∧ checkOverlap (sortByStart cats) = none := by
  unfold validate_abc_categories at h
  by_cases he : cats.isEmpty
  · simp [he] at h
  · rw [if_neg he] at h
    by_cases hd : (cats.map (fun c => c.name)).dedup.length = cats.length
    · rw [if_pos hd] at h
      cases hr : checkRanges cats with
      | some m => rw [hr] at h; cases h
      | none =>
        rw [hr] at h
        cases ho : checkOverlap (sortByStart cats) with
        | some m => rw [ho] at h; cases h
        | none =>
          exact ⟨fun hnil => he (by simp [hnil]),
            (dedup_names_iff_nodup _).mp hd, rfl, rfl⟩
    · simp [hd] at h

/-- C6 (amended): the validator accepts exactly the nonempty,
duplicate-free configurations whose tiers satisfy `0 ≤ start < end ≤ 1`
and, sorted by start, never overlap (`end[i] ≤ start[i+1]`); every
rejection carries a nonempty message.  Coverage of `[0,1]`
(`start[0] = 0`, `end[last] = 1`) is not checked. -/
theorem c6_validator_amended (cats : List RatioCat) :
    ((validate_abc_categories cats).1 = true ↔
      cats ≠ [] ∧ (cats.map (fun c => c.name)).Nodup ∧
        (∀ c ∈ cats, 0 ≤ c.start_ratio ∧ c.end_ratio ≤ 1 ∧ c.start_ratio < c.end_ratio) ∧
        List.Chain' (fun a b => a.end_ratio ≤ b.start_ratio) (sortByStart cats)) ∧
    ((validate_abc_categories cats).1 = false → (validate_abc_categories cats).2 ≠ "") := by
  constructor
  · constructor
    · intro h
      obtain ⟨h1, h2, h3, h4⟩ := validate_accepted_parts cats h
      exact ⟨h1, h2, (checkRanges_eq_none cats).mp h3, (checkOverlap_eq_none _).mp h4⟩
    · rintro ⟨h1, h2, h3, h4⟩
      unfold validate_abc_categories
      rw [if_neg (by simpa [List.isEmpty_iff] using h1),
        if_pos ((dedup_names_iff_nodup _).mpr h2),
        (checkRanges_eq_none cats).mpr h3, (checkOverlap_eq_none _).mpr h4]
  · intro h
    unfold validate_abc_categories at h ⊢
    by_cases he : cats.isEmpty
    · simp only [if_pos he]
      decide
    · rw [if_neg he] at h ⊢
      by_cases hd : (cats.map (fun c => c.name)).dedup.length = cats.length
      · rw [if_pos hd] at h ⊢
        cases hr : checkRanges cats with
        | some m =>
          exact checkRanges_ne_empty cats m hr
        | none =>
          cases ho : checkOverlap (sortByStart cats) with
          | some m =>
            exact checkOverlap_ne_empty _ m ho
          | none =>
            rw [hr, ho] at h
            simp at h
      · simp only [if_neg hd]
        decide

/-- Witness for `c6_validator_amended`: the empty configuration is
rejected with a message. -/
theorem c6_validator_amended_witness :
    (validate_abc_categories ([] : List RatioCat)).2 ≠ "" :=
  (c6_validator_amended []).2 (by decide)

/-- C6 counterexample: a single tier `[0.2, 0.5]` passes the validator
although its sorted starts do not begin at 0 and its sorted ends do not
finish at 1 — coverage of `[0,1]` is not enforced. -/
theorem c6_validator_counterexample :
    validate_abc_categories [⟨"A", 1/5, 1/2⟩] = (true, "") ∧
    ((sortByStart [⟨"A", 1/5, 1/2⟩]).map (fun c => c.start_ratio)).head? ≠ some 0 ∧
    ((sortByStart [⟨"A", 1/5, 1/2⟩]).map (fun c => c.end_ratio)).getLast? ≠ some 1 := by
  refine ⟨?_, by norm_num [sortByStart, sortBy, insertBy], by norm_num [sortByStart, sortBy, insertBy]⟩
  norm_num [validate_abc_categories, checkRanges, checkOverlap, sortByStart, sortBy, insertBy]

/-- Stable insertion is a permutation of consing. -/
theorem insertBy_perm (le : α → α → Bool) (a : α) (l : List α) :
    (insertBy le a l).Perm (a :: l) := by
  induction l with
  | nil => exact List.Perm.refl _
  | cons b rest ih =>
    by_cases h : le a b
    · rw [insertBy, if_pos h]
    · rw [insertBy, if_neg h]
      exact ((ih.cons b).trans (List.Perm.swap a b rest)).symm.symm

/-- Stable sorting permutes its input. -/
theorem sortBy_perm (le : α → α → Bool) (l : List α) : (sortBy le l).Perm l := by
  induction l with
  | nil => exact List.Perm.refl _
  | cons a rest ih => exact (insertBy_perm le a (sortBy le rest)).trans (ih.cons a)

/-- Adjacent non-overlap plus per-tier validity gives pairwise
non-overlap down the sorted list. -/
theorem chain_pairwise_nonoverlap (L : List RatioCat)
    (hv : ∀ c ∈ L, c.start_ratio < c.end_ratio)
    (hc : List.Chain' (fun a b => a.end_ratio ≤ b.start_ratio) L) :
    List.Pairwise (fun a b => a.end_ratio ≤ b.start_ratio) L := by
  induction L with
  | nil => exact List.Pairwise.nil
  | cons c₁ rest ih =>
    cases rest with
    | nil => simp
    | cons c₂ rest₂ =>
      rw [List.chain'_cons] at hc
      have hpair := ih (fun c hcm => hv c (List.mem_cons_of_mem c₁ hcm)) hc.2
      refine List.Pairwise.cons ?_ hpair
      intro d hd
      rcases List.mem_cons.mp hd with hd | hd
      · exact hd ▸ hc.1
      · have h2d : c₂.end_ratio ≤ d.start_ratio := by
          rcases List.pairwise_cons.mp hpair with ⟨h2, _⟩
          exact h2 d hd
        have hv2 : c₂.start_ratio < c₂.end_ratio :=
          hv c₂ (List.mem_cons_of_mem c₁ (List.mem_cons_self c₂ rest₂))
        exact le_trans hc.1 (le_trans (le_of_lt hv2) h2d)

/-- Two non-overlapping valid tiers cannot both contain a ratio. -/
theorem inTier_nonoverlap (a b : RatioCat) (ρ : ℚ)
    (hva : 0 ≤ a.start_ratio ∧ a.start_ratio < a.end_ratio)
    (_hvb : 0 ≤ b.start_ratio ∧ b.start_ratio < b.end_ratio)
    (hab : a.end_ratio ≤ b.start_ratio) :
    ¬(inTier a ρ = true ∧ inTier b ρ = true) := by
  rintro ⟨ha, hb⟩
  have haρ : ρ ≤ a.end_ratio := by
    unfold inTier at ha
    by_cases h0 : a.start_ratio = 0
    · rw [if_pos h0] at ha
      exact of_decide_eq_true ha
    · rw [if_neg h0] at ha
      exact of_decide_eq_true (Bool.and_elim_right ha)
  by_cases hb0 : b.start_ratio = 0
  · have : a.end_ratio ≤ 0 := hb0 ▸ hab
    linarith [hva.1, hva.2]
  · have hbρ : b.start_ratio < ρ := by
      unfold inTier at hb
      rw [if_neg hb0] at hb
      exact of_decide_eq_true (Bool.and_elim_left hb)
    linarith

/-- Under pairwise non-overlap, the tier containing a ratio is unique. -/
theorem inTier_unique (L : List RatioCat) (ρ : ℚ)
    (hv : ∀ c ∈ L, 0 ≤ c.start_ratio ∧ c.start_ratio < c.end_ratio)
    (hp : List.Pairwise (fun a b => a.end_ratio ≤ b.start_ratio) L)
    (a b : RatioCat) (ha : a ∈ L) (hb : b ∈ L)
    (hha : inTier a ρ = true) (hhb : inTier b ρ = true) : a = b := by
  induction L with
  | nil => cases ha
  | cons c rest ih =>
    rcases List.pairwise_cons.mp hp with ⟨hc, hrest⟩
    rcases List.mem_cons.mp ha with ha1 | ha1 <;> rcases List.mem_cons.mp hb with hb1 | hb1
    · exact ha1.trans hb1.symm
    · exact absurd ⟨ha1 ▸ hha, hhb⟩
        (inTier_nonoverlap c b ρ (hv c (List.mem_cons_self c rest))
          (hv b (List.mem_cons_of_mem c hb1)) (hc b hb1))
    · exact absurd ⟨hb1 ▸ hhb, hha⟩
        (inTier_nonoverlap c a ρ (hv c (List.mem_cons_self c rest))
          (hv a (List.mem_cons_of_mem c ha1)) (hc a ha1))
    · exact ih (fun d hd => hv d (List.mem_cons_of_mem c hd)) hrest ha1 hb1

/-- Folding the assignment loop over tiers none of which contains the
ratio leaves the accumulator unchanged. -/
theorem foldl_tier_no_hit (L : List RatioCat) (ρ : ℚ) (init : String)
    (h : ∀ c ∈ L, inTier c ρ = false) :
    L.foldl (fun acc c => if inTier c ρ then c.name else acc) init = init := by
  induction L generalizing init with
  | nil => rfl
  | cons c rest ih =>
    rw [List.foldl_cons, if_neg (by simp [h c (List.mem_cons_self c rest)])]
    exact ih init (fun d hd => h d (List.mem_cons_of_mem c hd))

/-- Folding the assignment loop keeps a value every hitting tier agrees
with. -/
theorem foldl_tier_preserve (L : List RatioCat) (ρ : ℚ) (v : String)
    (h : ∀ c ∈ L, inTier c ρ = true → c.name = v) :
    L.foldl (fun acc c => if inTier c ρ then c.name else acc) v = v := by
  induction L with
  | nil => rfl
  | cons c rest ih =>
    rw [List.foldl_cons]
    by_cases hc : inTier c ρ = true
    · rw [if_pos hc, h c (List.mem_cons_self c rest) hc]
      exact ih (fun d hd => h d (List.mem_cons_of_mem c hd))
    · rw [if_neg hc]
      exact ih (fun d hd => h d (List.mem_cons_of_mem c hd))

/-- If exactly one tier of the processed list contains the ratio, the
assignment loop returns that tier's name. -/
theorem foldl_tier_hit (L : List RatioCat) (ρ : ℚ) (init : String) (c : RatioCat)
    (hc : c ∈ L) (hhit : inTier c ρ = true)
    (huniq : ∀ d ∈ L, inTier d ρ = true → d = c) :
    L.foldl (fun acc d => if inTier d ρ then d.name else acc) init = c.name := by
  induction L generalizing init with
  | nil => cases hc
  | cons e rest ih =>
    rw [List.foldl_cons]
    by_cases he : inTier e ρ = true
    · rw [if_pos he]
      have hec : e = c := huniq e (List.mem_cons_self e rest) he
      rw [hec]
      exact foldl_tier_preserve rest ρ c.name
        (fun d hd hdh => by rw [huniq d (List.mem_cons_of_mem e hd) hdh])
    · rw [if_neg he]
      rcases List.mem_cons.mp hc with hceq | hcm
      · rw [hceq] at hhit
        exact absurd hhit he
      · exact ih init hcm (fun d hd => huniq d (List.mem_cons_of_mem e hd))

/-- C3 counterexample: two products with contributions 90 and 10, valid
tiers `A = [0, 0.5]`, `B = (0.5, 1]`.  The first tier (lowest start) is
`A` and the top contributor is product 1 with 90, yet both products are
assigned `B`: the top contributor's cumulative ratio is 0.9, which falls
outside the first tier. -/
theorem c3_top_contributor_counterexample :
    ((calculate_abc_classification
        [⟨1, some 1, some 90, some 90, none, none⟩, ⟨2, some 1, some 10, some 10, none, none⟩]
        [⟨"A", 0, 1/2⟩, ⟨"B", 1/2, 1⟩] none false).map (fun r => r.classAbc)) =
      [some "B", some "B"] ∧
    (validate_abc_categories [⟨"A", 0, 1/2⟩, ⟨"B", 1/2, 1⟩]).1 = true ∧
    (sortByStart [⟨"A", 0, 1/2⟩, ⟨"B", 1/2, 1⟩]).head? = some ⟨"A", 0, 1/2⟩ ∧
    (sortedTotals (cleanRows
        [⟨1, some 1, some 90, some 90, none, none⟩,
          ⟨2, some 1, some 10, some 10, none, none⟩])).head? = some (1, 90) := by
  refine ⟨?_, ?_, ?_, ?_⟩
  · norm_num [calculate_abc_classification, cleanRows, cleanRow, cleanActual, abcLabel,
      productTotals, sortedPcodes, sortedTotals, sortBy, insertBy, cumList, ratioMapping,
      tierOfRatio, sortByStart, inTier, List.lookup, isTargeted, fillUnclassified, initLabel]
    rfl
  · norm_num [validate_abc_categories, checkRanges, checkOverlap, sortByStart, sortBy, insertBy]
    decide
  · norm_num [sortByStart, sortBy, insertBy]
  · norm_num [sortedTotals, productTotals, sortedPcodes, cleanRows, cleanRow, cleanActual,
      sortBy, insertBy]

/-- C3 (amended): for a validator-accepted configuration, processed in
ascending start order, a ratio covered by some tier is assigned exactly
the unique tier whose range `(start, end]` — `[0, end]` for the
start-zero tier — contains it; but the top contributor is NOT always
assigned to the first tier: it lands there only when its own
contribution ratio does not exceed the first tier's end ratio, and in a
later tier otherwise (ratios covered by no tier get the fixed default
label `'C'`). -/
theorem c3_tier_assignment_amended (cats : List RatioCat)
    (h : (validate_abc_categories cats).1 = true) (ρ : ℚ)
    (hcover : ∃ c ∈ cats, inTier c ρ = true)
    (c : RatioCat) (hc : c ∈ cats) :
    tierOfRatio cats ρ = c.name ↔ inTier c ρ = true := by
  obtain ⟨hne, hnodup, hr, ho⟩ := validate_accepted_parts cats h
  have hvalid := (checkRanges_eq_none cats).mp hr
  have hchain := (checkOverlap_eq_none _).mp ho
  have hperm : (sortByStart cats).Perm cats := sortBy_perm _ _
  have hmemL : ∀ d : RatioCat, d ∈ sortByStart cats ↔ d ∈ cats := fun d => hperm.mem_iff
  have hvL : ∀ d ∈ sortByStart cats, 0 ≤ d.start_ratio ∧ d.start_ratio < d.end_ratio :=
    fun d hd => ⟨(hvalid d ((hmemL d).mp hd)).1, (hvalid d ((hmemL d).mp hd)).2.2⟩
  have hp := chain_pairwise_nonoverlap (sortByStart cats) (fun d hd => (hvL d hd).2) hchain
  obtain ⟨c₀, hc₀, hhit₀⟩ := hcover
  have hc₀L : c₀ ∈ sortByStart cats := (hmemL c₀).mpr hc₀
  have huniq : ∀ d ∈ sortByStart cats, inTier d ρ = true → d = c₀ :=
    fun d hd hdh => inTier_unique _ ρ hvL hp d c₀ hd hc₀L hdh hhit₀
  have hfold : tierOfRatio cats ρ = c₀.name := foldl_tier_hit _ ρ "C" c₀ hc₀L hhit₀ huniq
  constructor
  · intro heq
    have hname : c₀.name = c.name := by rw [← hfold, heq]
    have : c₀ = c := List.inj_on_of_nodup_map hnodup hc₀ hc hname
    exact this ▸ hhit₀
  · intro hcc
    have : c = c₀ := inTier_unique _ ρ hvL hp c c₀ ((hmemL c).mpr hc) hc₀L hcc hhit₀
    rw [hfold, this]

/-- Witness for `c3_tier_assignment_amended`: with the default A/B/C
configuration a cumulative ratio of 0.9 is assigned tier C. -/
theorem c3_tier_assignment_amended_witness :
    tierOfRatio [⟨"A", 0, 1/2⟩, ⟨"B", 1/2, 4/5⟩, ⟨"C", 4/5, 1⟩] (9/10) = "C" :=
  (c3_tier_assignment_amended [⟨"A", 0, 1/2⟩, ⟨"B", 1/2, 4/5⟩, ⟨"C", 4/5, 1⟩]
    (by
      norm_num [validate_abc_categories, checkRanges, checkOverlap, sortByStart,
        sortBy, insertBy]
      decide)
    (9/10)
    ⟨⟨"C", 4/5, 1⟩,
      List.mem_cons_of_mem _ (List.mem_cons_of_mem _ (List.mem_cons_self _ _)),
      by norm_num [inTier]⟩
    ⟨"C", 4/5, 1⟩
    (List.mem_cons_of_mem _ (List.mem_cons_of_mem _ (List.mem_cons_self _ _)))).mpr
    (by norm_num [inTier])

/-- A band with finite bounds tests `lo ≤ m < hi`. -/
theorem bandHit_bounded (b : BandDef) (lo hi m : ℚ) (hmin : b.min = lo)
    (hmax : b.max = some hi) :
    bandHit b (EVal.fin m) = (decide (lo ≤ m) && decide (m < hi)) := by
  simp [bandHit, hmin, hmax]

/-- The unbounded band tests `lo ≤ m`. -/
theorem bandHit_unbounded (b : BandDef) (lo m : ℚ) (hmin : b.min = lo)
    (hmax : b.max = none) :
    bandHit b (EVal.fin m) = decide (lo ≤ m) := by
  simp [bandHit, hmin, hmax]

/-- Any list with the standard six band boundaries partitions the
non-negative magnitudes: every magnitude hits some band, exactly one
band, and `selectBand` returns that band's label. -/
theorem six_band_partition (L : List BandDef) (m : ℚ) (hm : 0 ≤ m)
    (hL : L.map (fun b => (b.min, b.max)) =
      [((0 : ℚ), some ((1 : ℚ)/10)), (1/10, some (2/10)), (2/10, some (3/10)),
        (3/10, some (5/10)), (5/10, some 1), (1, none)]) :
    (∃ b ∈ L, bandHit b (EVal.fin m) = true) ∧
    L.countP (fun b => bandHit b (EVal.fin m)) = 1 ∧
    ∀ b ∈ L, bandHit b (EVal.fin m) = true → selectBand L (EVal.fin m) = b.label := by
  rcases L with _ | ⟨b0, L⟩; · simp at hL
  rcases L with _ | ⟨b1, L⟩; · simp at hL
  rcases L with _ | ⟨b2, L⟩; · simp at hL
  rcases L with _ | ⟨b3, L⟩; · simp at hL
  rcases L with _ | ⟨b4, L⟩; · simp at hL
  rcases L with _ | ⟨b5, L⟩; · simp at hL
  rcases L with _ | ⟨b6, L⟩
  case cons => simp at hL
  simp only [List.map_cons, List.map_nil, List.cons.injEq, Prod.mk.injEq, and_true] at hL
  obtain ⟨⟨e0a, e0b⟩, ⟨e1a, e1b⟩, ⟨e2a, e2b⟩, ⟨e3a, e3b⟩, ⟨e4a, e4b⟩, e5a, e5b⟩ := hL
  rcases lt_or_le m (1/10) with h1 | h1
  ·
    have v0 : bandHit b0 (EVal.fin m) = true := by
      rw [bandHit_bounded b0 (0) (1/10) m e0a e0b,
        decide_eq_true (show (0 : ℚ) ≤ m from by linarith),
        decide_eq_true (show m < (1/10 : ℚ) from by linarith)]
      rfl
    have v1 : bandHit b1 (EVal.fin m) = false := by
      rw [bandHit_bounded b1 (1/10) (2/10) m e1a e1b,
        decide_eq_false (show ¬((1/10 : ℚ) ≤ m) from by linarith)]
      rfl
    have v2 : bandHit b2 (EVal.fin m) = false := by
      rw [bandHit_bounded b2 (2/10) (3/10) m e2a e2b,
        decide_eq_false (show ¬((2/10 : ℚ) ≤ m) from by linarith)]
      rfl
    have v3 : bandHit b3 (EVal.fin m) = false := by
      rw [bandHit_bounded b3 (3/10) (5/10) m e3a e3b,
        decide_eq_false (show ¬((3/10 : ℚ) ≤ m) from by linarith)]
      rfl
    have v4 : bandHit b4 (EVal.fin m) = false := by
      rw [bandHit_bounded b4 (5/10) (1) m e4a e4b,
        decide_eq_false (show ¬((5/10 : ℚ) ≤ m) from by linarith)]
      rfl
    have v5 : bandHit b5 (EVal.fin m) = false := by
      rw [bandHit_unbounded b5 1 m e5a e5b,
        decide_eq_false (show ¬((1 : ℚ) ≤ m) from by linarith)]
    refine ⟨⟨b0, by simp, v0⟩, ?_, ?_⟩
    · simp [List.countP_cons, v0, v1, v2, v3, v4, v5]
    · intro b hb hhit
      have hsel : selectBand [b0, b1, b2, b3, b4, b5] (EVal.fin m) = b0.label := by
        simp only [selectBand]
        rw [@List.find?_cons_of_pos BandDef (fun b => bandHit b (EVal.fin m)) b0 [b1, b2, b3, b4, b5] v0]
      simp only [List.mem_cons, List.not_mem_nil, or_false] at hb
      rcases hb with rfl | rfl | rfl | rfl | rfl | rfl
      · exact hsel
      · rw [hhit] at v1; cases v1
      · rw [hhit] at v2; cases v2
      · rw [hhit] at v3; cases v3
      · rw [hhit] at v4; cases v4
      · rw [hhit] at v5; cases v5
  ·
    rcases lt_or_le m (2/10) with h2 | h2
    ·
      have v0 : bandHit b0 (EVal.fin m) = false := by
        rw [bandHit_bounded b0 (0) (1/10) m e0a e0b,
          decide_eq_true (show (0 : ℚ) ≤ m from by linarith),
          decide_eq_false (show ¬(m < (1/10 : ℚ)) from by linarith)]
        rfl
      have v1 : bandHit b1 (EVal.fin m) = true := by
        rw [bandHit_bounded b1 (1/10) (2/10) m e1a e1b,
          decide_eq_true (show (1/10 : ℚ) ≤ m from by linarith),
          decide_eq_true (show m < (2/10 : ℚ) from by linarith)]
        rfl
      have v2 : bandHit b2 (EVal.fin m) = false := by
        rw [bandHit_bounded b2 (2/10) (3/10) m e2a e2b,
          decide_eq_false (show ¬((2/10 : ℚ) ≤ m) from by linarith)]
        rfl
      have v3 : bandHit b3 (EVal.fin m) = false := by
        rw [bandHit_bounded b3 (3/10) (5/10) m e3a e3b,
          decide_eq_false (show ¬((3/10 : ℚ) ≤ m) from by linarith)]
        rfl
      have v4 : bandHit b4 (EVal.fin m) = false := by
        rw [bandHit_bounded b4 (5/10) (1) m e4a e4b,
          decide_eq_false (show ¬((5/10 : ℚ) ≤ m) from by linarith)]
        rfl
      have v5 : bandHit b5 (EVal.fin m) = false := by
        rw [bandHit_unbounded b5 1 m e5a e5b,
          decide_eq_false (show ¬((1 : ℚ) ≤ m) from by linarith)]
      refine ⟨⟨b1, by simp, v1⟩, ?_, ?_⟩
      · simp [List.countP_cons, v0, v1, v2, v3, v4, v5]
      · intro b hb hhit
        have hsel : selectBand [b0, b1, b2, b3, b4, b5] (EVal.fin m) = b1.label := by
          simp only [selectBand]
          rw [@List.find?_cons_of_neg BandDef (fun b => bandHit b (EVal.fin m)) b0 [b1, b2, b3, b4, b5] (by simp [v0]),
            @List.find?_cons_of_pos BandDef (fun b => bandHit b (EVal.fin m)) b1 [b2, b3, b4, b5] v1]
        simp only [List.mem_cons, List.not_mem_nil, or_false] at hb
        rcases hb with rfl | rfl | rfl | rfl | rfl | rfl
        · rw [hhit] at v0; cases v0
        · exact hsel
        · rw [hhit] at v2; cases v2
        · rw [hhit] at v3; cases v3
        · rw [hhit] at v4; cases v4
        · rw [hhit] at v5; cases v5
    ·
      rcases lt_or_le m (3/10) with h3 | h3
      ·
        have v0 : bandHit b0 (EVal.fin m) = false := by
          rw [bandHit_bounded b0 (0) (1/10) m e0a e0b,
            decide_eq_true (show (0 : ℚ) ≤ m from by linarith),
            decide_eq_false (show ¬(m < (1/10 : ℚ)) from by linarith)]
          rfl
        have v1 : bandHit b1 (EVal.fin m) = false := by
          rw [bandHit_bounded b1 (1/10) (2/10) m e1a e1b,
            decide_eq_true (show (1/10 : ℚ) ≤ m from by linarith),
            decide_eq_false (show ¬(m < (2/10 : ℚ)) from by linarith)]
          rfl
        have v2 : bandHit b2 (EVal.fin m) = true := by
          rw [bandHit_bounded b2 (2/10) (3/10) m e2a e2b,
            decide_eq_true (show (2/10 : ℚ) ≤ m from by linarith),
            decide_eq_true (show m < (3/10 : ℚ) from by linarith)]
          rfl
        have v3 : bandHit b3 (EVal.fin m) = false := by
          rw [bandHit_bounded b3 (3/10) (5/10) m e3a e3b,
            decide_eq_false (show ¬((3/10 : ℚ) ≤ m) from by linarith)]
          rfl
        have v4 : bandHit b4 (EVal.fin m) = false := by
          rw [bandHit_bounded b4 (5/10) (1) m e4a e4b,
            decide_eq_false (show ¬((5/10 : ℚ) ≤ m) from by linarith)]
          rfl
        have v5 : bandHit b5 (EVal.fin m) = false := by
          rw [bandHit_unbounded b5 1 m e5a e5b,
            decide_eq_false (show ¬((1 : ℚ) ≤ m) from by linarith)]
        refine ⟨⟨b2, by simp, v2⟩, ?_, ?_⟩
        · simp [List.countP_cons, v0, v1, v2, v3, v4, v5]
        · intro b hb hhit
          have hsel : selectBand [b0, b1, b2, b3, b4, b5] (EVal.fin m) = b2.label := by
            simp only [selectBand]
            rw [@List.find?_cons_of_neg BandDef (fun b => bandHit b (EVal.fin m)) b0 [b1, b2, b3, b4, b5] (by simp [v0]),
              @List.find?_cons_of_neg BandDef (fun b => bandHit b (EVal.fin m)) b1 [b2, b3, b4, b5] (by simp [v1]),
              @List.find?_cons_of_pos BandDef (fun b => bandHit b (EVal.fin m)) b2 [b3, b4, b5] v2]
          simp only [List.mem_cons, List.not_mem_nil, or_false] at hb
          rcases hb with rfl | rfl | rfl | rfl | rfl | rfl
          · rw [hhit] at v0; cases v0
          · rw [hhit] at v1; cases v1
          · exact hsel
          · rw [hhit] at v3; cases v3
          · rw [hhit] at v4; cases v4
          · rw [hhit] at v5; cases v5
      ·
        rcases lt_or_le m (5/10) with h4 | h4
        ·
          have v0 : bandHit b0 (EVal.fin m) = false := by
            rw [bandHit_bounded b0 (0) (1/10) m e0a e0b,
              decide_eq_true (show (0 : ℚ) ≤ m from by linarith),
              decide_eq_false (show ¬(m < (1/10 : ℚ)) from by linarith)]
            rfl
          have v1 : bandHit b1 (EVal.fin m) = false := by
            rw [bandHit_bounded b1 (1/10) (2/10) m e1a e1b,
              decide_eq_true (show (1/10 : ℚ) ≤ m from by linarith),
              decide_eq_false (show ¬(m < (2/10 : ℚ)) from by linarith)]
            rfl
          have v2 : bandHit b2 (EVal.fin m) = false := by
            rw [bandHit_bounded b2 (2/10) (3/10) m e2a e2b,
              decide_eq_true (show (2/10 : ℚ) ≤ m from by linarith),
              decide_eq_false (show ¬(m < (3/10 : ℚ)) from by linarith)]
            rfl
          have v3 : bandHit b3 (EVal.fin m) = true := by
            rw [bandHit_bounded b3 (3/10) (5/10) m e3a e3b,
              decide_eq_true (show (3/10 : ℚ) ≤ m from by linarith),
              decide_eq_true (show m < (5/10 : ℚ) from by linarith)]
            rfl
          have v4 : bandHit b4 (EVal.fin m) = false := by
            rw [bandHit_bounded b4 (5/10) (1) m e4a e4b,
              decide_eq_false (show ¬((5/10 : ℚ) ≤ m) from by linarith)]
            rfl
          have v5 : bandHit b5 (EVal.fin m) = false := by
            rw [bandHit_unbounded b5 1 m e5a e5b,
              decide_eq_false (show ¬((1 : ℚ) ≤ m) from by linarith)]
          refine ⟨⟨b3, by simp, v3⟩, ?_, ?_⟩
          · simp [List.countP_cons, v0, v1, v2, v3, v4, v5]
          · intro b hb hhit
            have hsel : selectBand [b0, b1, b2, b3, b4, b5] (EVal.fin m) = b3.label := by
              simp only [selectBand]
              rw [@List.find?_cons_of_neg BandDef (fun b => bandHit b (EVal.fin m)) b0 [b1, b2, b3, b4, b5] (by simp [v0]),
                @List.find?_cons_of_neg BandDef (fun b => bandHit b (EVal.fin m)) b1 [b2, b3, b4, b5] (by simp [v1]),
                @List.find?_cons_of_neg BandDef (fun b => bandHit b (EVal.fin m)) b2 [b3, b4, b5] (by simp [v2]),
                @List.find?_cons_of_pos BandDef (fun b => bandHit b (EVal.fin m)) b3 [b4, b5] v3]
            simp only [List.mem_cons, List.not_mem_nil, or_false] at hb
            rcases hb with rfl | rfl | rfl | rfl | rfl | rfl
            · rw [hhit] at v0; cases v0
            · rw [hhit] at v1; cases v1
            · rw [hhit] at v2; cases v2
            · exact hsel
            · rw [hhit] at v4; cases v4
            · rw [hhit] at v5; cases v5
        ·
          rcases lt_or_le m (1) with h5 | h5
          ·
            have v0 : bandHit b0 (EVal.fin m) = false := by
              rw [bandHit_bounded b0 (0) (1/10) m e0a e0b,
                decide_eq_true (show (0 : ℚ) ≤ m from by linarith),
                decide_eq_false (show ¬(m < (1/10 : ℚ)) from by linarith)]
              rfl
            have v1 : bandHit b1 (EVal.fin m) = false := by
              rw [bandHit_bounded b1 (1/10) (2/10) m e1a e1b,
                decide_eq_true (show (1/10 : ℚ) ≤ m from by linarith),
                decide_eq_false (show ¬(m < (2/10 : ℚ)) from by linarith)]
              rfl
            have v2 : bandHit b2 (EVal.fin m) = false := by
              rw [bandHit_bounded b2 (2/10) (3/10) m e2a e2b,
                decide_eq_true (show (2/10 : ℚ) ≤ m from by linarith),
                decide_eq_false (show ¬(m < (3/10 : ℚ)) from by linarith)]
              rfl
            have v3 : bandHit b3 (EVal.fin m) = false := by
              rw [bandHit_bounded b3 (3/10) (5/10) m e3a e3b,
                decide_eq_true (show (3/10 : ℚ) ≤ m from by linarith),
                decide_eq_false (show ¬(m < (5/10 : ℚ)) from by linarith)]
              rfl
            have v4 : bandHit b4 (EVal.fin m) = true := by
              rw [bandHit_bounded b4 (5/10) (1) m e4a e4b,
                decide_eq_true (show (5/10 : ℚ) ≤ m from by linarith),
                decide_eq_true (show m < (1 : ℚ) from by linarith)]
              rfl
            have v5 : bandHit b5 (EVal.fin m) = false := by
              rw [bandHit_unbounded b5 1 m e5a e5b,
                decide_eq_false (show ¬((1 : ℚ) ≤ m) from by linarith)]
            refine ⟨⟨b4, by simp, v4⟩, ?_, ?_⟩
            · simp [List.countP_cons, v0, v1, v2, v3, v4, v5]
            · intro b hb hhit
              have hsel : selectBand [b0, b1, b2, b3, b4, b5] (EVal.fin m) = b4.label := by
                simp only [selectBand]
                rw [@List.find?_cons_of_neg BandDef (fun b => bandHit b (EVal.fin m)) b0 [b1, b2, b3, b4, b5] (by simp [v0]),
                  @List.find?_cons_of_neg BandDef (fun b => bandHit b (EVal.fin m)) b1 [b2, b3, b4, b5] (by simp [v1]),
                  @List.find?_cons_of_neg BandDef (fun b => bandHit b (EVal.fin m)) b2 [b3, b4, b5] (by simp [v2]),
                  @List.find?_cons_of_neg BandDef (fun b => bandHit b (EVal.fin m)) b3 [b4, b5] (by simp [v3]),
                  @List.find?_cons_of_pos BandDef (fun b => bandHit b (EVal.fin m)) b4 [b5] v4]
              simp only [List.mem_cons, List.not_mem_nil, or_false] at hb
              rcases hb with rfl | rfl | rfl | rfl | rfl | rfl
              · rw [hhit] at v0; cases v0
              · rw [hhit] at v1; cases v1
              · rw [hhit] at v2; cases v2
              · rw [hhit] at v3; cases v3
              · exact hsel
              · rw [hhit] at v5; cases v5
          ·
            have v0 : bandHit b0 (EVal.fin m) = false := by
              rw [bandHit_bounded b0 (0) (1/10) m e0a e0b,
                decide_eq_true (show (0 : ℚ) ≤ m from by linarith),
                decide_eq_false (show ¬(m < (1/10 : ℚ)) from by linarith)]
              rfl
            have v1 : bandHit b1 (EVal.fin m) = false := by
              rw [bandHit_bounded b1 (1/10) (2/10) m e1a e1b,
                decide_eq_true (show (1/10 : ℚ) ≤ m from by linarith),
                decide_eq_false (show ¬(m < (2/10 : ℚ)) from by linarith)]
              rfl
            have v2 : bandHit b2 (EVal.fin m) = false := by
              rw [bandHit_bounded b2 (2/10) (3/10) m e2a e2b,
                decide_eq_true (show (2/10 : ℚ) ≤ m from by linarith),
                decide_eq_false (show ¬(m < (3/10 : ℚ)) from by linarith)]
              rfl
            have v3 : bandHit b3 (EVal.fin m) = false := by
              rw [bandHit_bounded b3 (3/10) (5/10) m e3a e3b,
                decide_eq_true (show (3/10 : ℚ) ≤ m from by linarith),
                decide_eq_false (show ¬(m < (5/10 : ℚ)) from by linarith)]
              rfl
            have v4 : bandHit b4 (EVal.fin m) = false := by
              rw [bandHit_bounded b4 (5/10) (1) m e4a e4b,
                decide_eq_true (show (5/10 : ℚ) ≤ m from by linarith),
                decide_eq_false (show ¬(m < (1 : ℚ)) from by linarith)]
              rfl
            have v5 : bandHit b5 (EVal.fin m) = true := by
              rw [bandHit_unbounded b5 1 m e5a e5b,
                decide_eq_true (show (1 : ℚ) ≤ m from by linarith)]
            refine ⟨⟨b5, by simp, v5⟩, ?_, ?_⟩
            · simp [List.countP_cons, v0, v1, v2, v3, v4, v5]
            · intro b hb hhit
              have hsel : selectBand [b0, b1, b2, b3, b4, b5] (EVal.fin m) = b5.label := by
                simp only [selectBand]
                rw [@List.find?_cons_of_neg BandDef (fun b => bandHit b (EVal.fin m)) b0 [b1, b2, b3, b4, b5] (by simp [v0]),
                  @List.find?_cons_of_neg BandDef (fun b => bandHit b (EVal.fin m)) b1 [b2, b3, b4, b5] (by simp [v1]),
                  @List.find?_cons_of_neg BandDef (fun b => bandHit b (EVal.fin m)) b2 [b3, b4, b5] (by simp [v2]),
                  @List.find?_cons_of_neg BandDef (fun b => bandHit b (EVal.fin m)) b3 [b4, b5] (by simp [v3]),
                  @List.find?_cons_of_neg BandDef (fun b => bandHit b (EVal.fin m)) b4 [b5] (by simp [v4]),
                  @List.find?_cons_of_pos BandDef (fun b => bandHit b (EVal.fin m)) b5 [] v5]
              simp only [List.mem_cons, List.not_mem_nil, or_false] at hb
              rcases hb with rfl | rfl | rfl | rfl | rfl | rfl
              · rw [hhit] at v0; cases v0
              · rw [hhit] at v1; cases v1
              · rw [hhit] at v2; cases v2
              · rw [hhit] at v3; cases v3
              · rw [hhit] at v4; cases v4
              · exact hsel

/-- C9: for a record with non-zero actual whose chosen variant value is
present and finite, the magnitude `|r|` falls in exactly one of the six
bands, the categorizer returns that band's label (absolute value taken
first for the absolute and negative variants), and the `'未区分'`
fallback is never produced. -/
theorem c9_band_totality (x q : ℚ) (hx : x ≠ 0) (t : ErrType) (r : ℚ)
    (hval : variantValue t (errorMetricsRow (some q) (some x)) = EVal.fin r) :
    ((bandsFor t).countP (fun b => bandHit b (EVal.fin |r|)) = 1) ∧
    (∀ b ∈ bandsFor t, bandHit b (EVal.fin |r|) = true →
      categorizeRow t (errorMetricsRow (some q) (some x)).is_actual_zero
        (variantValue t (errorMetricsRow (some q) (some x))) = b.label) ∧
    categorizeRow t (errorMetricsRow (some q) (some x)).is_actual_zero
      (variantValue t (errorMetricsRow (some q) (some x))) ≠ "未区分" := by
  have hz : (errorMetricsRow (some q) (some x)).is_actual_zero = false := by
    simp [errorMetricsRow, hx]
  have hL : (bandsFor t).map (fun b => (b.min, b.max)) =
      [((0 : ℚ), some ((1 : ℚ)/10)), (1/10, some (2/10)), (2/10, some (3/10)),
        (3/10, some (5/10)), (5/10, some 1), (1, none)] := by
    cases t <;> rfl
  obtain ⟨hex, hcount, hsel⟩ := six_band_partition (bandsFor t) |r| (abs_nonneg r) hL
  have hlabels : ∀ b ∈ bandsFor t, b.label ≠ "未区分" := by
    cases t <;> decide
  have hcat : categorizeRow t (errorMetricsRow (some q) (some x)).is_actual_zero
      (variantValue t (errorMetricsRow (some q) (some x))) =
      selectBand (bandsFor t) (EVal.fin |r|) := by
    rw [hz]
    cases t with
    | absolute =>
      simp only [variantValue] at hval ⊢
      rw [hval]
      rfl
    | positive =>
      simp only [variantValue] at hval ⊢
      have h0r : 0 ≤ r := by
        by_cases hge : (error_rate_of (some q) (some x)).ge0 = true
        · have hv : (errorMetricsRow (some q) (some x)).positive_error_rate =
              error_rate_of (some q) (some x) := by
            simp [errorMetricsRow, hge]
          rw [hv] at hval
          rw [hval] at hge
          simpa [EVal.ge0] using hge
        · have hv : (errorMetricsRow (some q) (some x)).positive_error_rate = EVal.nan := by
            simp [errorMetricsRow, hge]
          rw [hv] at hval
          cases hval
      rw [hval, abs_of_nonneg h0r]
      rfl
    | negative =>
      simp only [variantValue] at hval ⊢
      rw [hval]
      rfl
  refine ⟨hcount, ?_, ?_⟩
  · intro b hb hbh
    rw [hcat]
    exact hsel b hb hbh
  · obtain ⟨b, hb, hbh⟩ := hex
    rw [hcat, hsel b hb hbh]
    exact hlabels b hb

/-- Witness for `c9_band_totality` at actual 4, plan 5: the absolute
rate 1/4 is banded uniquely. -/
theorem c9_band_totality_witness :
    (bandsFor ErrType.absolute).countP
      (fun b => bandHit b (EVal.fin |(1 : ℚ)/4|)) = 1 :=
  (c9_band_totality 4 5 (by norm_num) ErrType.absolute (1/4)
    (by norm_num [variantValue, errorMetricsRow, error_rate_of, EVal.abs])).1

/-- C8 counterexample: a frame in which NO row carries a category. In
partial-update mode (`target_categories = [9]`) the engine still takes
the global branch and relabels the category-less row from its previous
`"A"` to `"C"` — the row neither keeps its label nor stays unclassified. -/
theorem c8_partial_update_counterexample :
    ((calculate_abc_classification
        [⟨1, some 1, some 5, some 5, none, some "A"⟩]
        [⟨"A", 0, 1/2⟩, ⟨"B", 1/2, 4/5⟩, ⟨"C", 4/5, 1⟩] (some [9]) false).map
          (fun r => r.classAbc)) = [some "C"] ∧
    (some "C" : Option String) ≠ some "A" := by
  constructor
  · norm_num [calculate_abc_classification, cleanRows, cleanRow, cleanActual, abcLabel,
      productTotals, sortedPcodes, sortedTotals, sortBy, insertBy, cumList, ratioMapping,
      tierOfRatio, sortByStart, inTier, List.lookup, isTargeted, fillUnclassified, initLabel]
  · decide

/-- C8 (amended): provided at least one row of the frame carries a
category, partial-update mode leaves every row whose category is absent
or not in the target set with its previous label (absent labels staying
absent), and a full preserving run keeps the existing label of every
category-less row; when no row carries a category the partial-update
request is ignored and the frame is reclassified globally. -/
theorem c8_partial_update_amended (rows : List Row) (cats : List RatioCat)
    (preserve : Bool) (r : Row)
    (hany : rows.any (fun x => x.category.isSome) = true) :
    (∀ ts : List ℕ, (∀ c : ℕ, r.category = some c → c ∉ ts) →
      abcLabel rows cats (some ts) preserve r = r.classAbc) ∧
    (preserve = true → r.category = none → ∀ l : String, r.classAbc = some l →
      abcLabel rows cats none preserve r = some l) := by
  constructor
  · intro ts hts
    cases hcat : r.category with
    | some c =>
      have hmem : isTargeted (some ts) c = false := by
        simp [isTargeted, hts c hcat]
      simp [abcLabel, hany, hcat, hmem, fillUnclassified, initLabel]
    | none =>
      simp [abcLabel, hany, hcat, fillUnclassified, initLabel]
  · intro hpres hcat l hl
    subst hpres
    simp [abcLabel, hany, hcat, fillUnclassified, initLabel, hl]

/-- Witness for `c8_partial_update_amended`: a categorised row whose
category 3 is not in the target set `[9]` keeps its label `"A"`. -/
theorem c8_partial_update_amended_witness :
    abcLabel [⟨1, some 1, some 5, some 5, some 3, some "A"⟩]
      [⟨"A", 0, 1/2⟩, ⟨"B", 1/2, 1⟩] (some [9]) false
      ⟨1, some 1, some 5, some 5, some 3, some "A"⟩ = some "A" :=
  (c8_partial_update_amended _ _ false _ (by decide)).1 [9]
    (by
      intro c hc
      cases hc
      decide)

/-- C10 counterexample: the ratio classifier's returned frame does not
preserve the base column: a negative actual `-5` comes back as `0`
(the returned copy carries the coerced column). -/
theorem c10_base_column_counterexample :
    ((calculate_abc_classification [⟨1, some 1, some (-5), some 3, none, none⟩]
        [⟨"A", 0, 1/2⟩, ⟨"B", 1/2, 1⟩] none false).map (fun r => r.actual)) = [some 0] ∧
    ([⟨1, some 1, some (-5), some 3, none, none⟩] : List Row).map (fun r => r.actual) ≠
      [some 0] := by
  constructor
  · norm_num [calculate_abc_classification, cleanRows, cleanRow, cleanActual]
  · norm_num

/-- C10 (amended): the engine operations are pure functions of their
input frame: `calculate_error_rates` returns the rows unchanged with
metrics attached; the two classifiers return one output row per input
row preserving every original column except the base column, which is
returned numerically coerced (missing → 0, negatives clipped to 0) and
is therefore value-preserved exactly when the input is already cleaned. -/
theorem c10_no_mutation_amended (rows : List Row) (cats : List RatioCat)
    (qcats : List QtyCat) (target : Option (List ℕ)) (preserve : Bool) :
    ((calculate_error_rates rows).map Prod.fst = rows) ∧
    ((calculate_abc_classification rows cats target preserve).map
        (fun r => (r.pcode, r.date, r.plan, r.category)) =
      rows.map (fun r => (r.pcode, r.date, r.plan, r.category))) ∧
    ((calculate_abc_classification_by_quantity rows qcats target preserve).map
        (fun r => (r.pcode, r.date, r.plan, r.category)) =
      rows.map (fun r => (r.pcode, r.date, r.plan, r.category))) ∧
    ((∀ x ∈ rows, ∃ a : ℚ, x.actual = some a ∧ 0 ≤ a) →
      ((calculate_abc_classification rows cats target preserve).map (fun r => r.actual) =
        rows.map (fun r => r.actual)) ∧
      ((calculate_abc_classification_by_quantity rows qcats target preserve).map
          (fun r => r.actual) = rows.map (fun r => r.actual))) := by
  refine ⟨?_, ?_, ?_, ?_⟩
  · rw [calculate_error_rates, List.map_map]
    exact List.map_id rows
  · rw [calculate_abc_classification, cleanRows, List.map_map, List.map_map]
    rfl
  · rw [calculate_abc_classification_by_quantity, cleanRows, List.map_map, List.map_map]
    rfl
  · intro hclean
    have hpoint : ∀ x ∈ rows, some (cleanActual x.actual) = x.actual := by
      intro x hxm
      obtain ⟨a, ha, ha0⟩ := hclean x hxm
      rw [ha]
      simp [cleanActual, max_eq_left ha0]
    constructor
    · rw [calculate_abc_classification, cleanRows, List.map_map, List.map_map]
      exact List.map_congr_left (fun x hxm => hpoint x hxm)
    · rw [calculate_abc_classification_by_quantity, cleanRows, List.map_map, List.map_map]
      exact List.map_congr_left (fun x hxm => hpoint x hxm)

/-- Witness for `c10_no_mutation_amended` on a one-row cleaned frame. -/
theorem c10_no_mutation_amended_witness :
    (calculate_abc_classification [⟨1, some 1, some 5, some 3, none, none⟩]
        [⟨"A", 0, 1/2⟩, ⟨"B", 1/2, 1⟩] none false).map (fun r => r.actual) =
      ([⟨1, some 1, some 5, some 3, none, none⟩] : List Row).map (fun r => r.actual) :=
  ((c10_no_mutation_amended [⟨1, some 1, some 5, some 3, none, none⟩]
    [⟨"A", 0, 1/2⟩, ⟨"B", 1/2, 1⟩] [] none false).2.2.2
    (by
      intro x hxm
      rcases List.mem_cons.mp hxm with h | h
      · exact ⟨5, by rw [h], by norm_num⟩
      · cases h)).1
